import Mathlib

/-!
Verification of the Markowitz mean-variance optimization core of the
AngleOneSmartAPI repository (`SmartApi/markowitz_optimizer.py` and the
orchestration in `markowitz_portfolio_angleone.py`).

Vectors and matrices are embedded as lists of rationals; the floating-point
square root is embedded as `npSqrt : ℚ → Option ℝ`, where `none` stands for
the NaN that `np.sqrt` produces on a negative argument.  The external SLSQP
solver (`scipy.optimize.minimize`) is not part of the repository, so the
solver is a parameter: the optimization routines are embedded as functions of
an abstract `Solver`, faithfully reproducing which objective, initial guess,
bounds and equality constraints the source hands to `minimize`, how it checks
`result.success`, and how it post-processes `result.x`.
-/

namespace Markowitz

/-- `np.dot` of two equal-length vectors: sum of elementwise products. -/
def dot (xs ys : List ℚ) : ℚ :=
  (List.zipWith (fun a b => a * b) xs ys).sum

/-- `np.dot(cov, w)`: matrix-vector product, row by row. -/
def matVec (m : List (List ℚ)) (v : List ℚ) : List ℚ :=
  m.map (fun row => dot row v)

/-- The quadratic form `w' · Cov · w`, as computed by
`np.dot(weights.T, np.dot(cov, weights))` in `portfolio_volatility`. -/
def quadForm (w : List ℚ) (cov : List (List ℚ)) : ℚ :=
  dot w (matVec cov w)

/-- `np.sqrt` on an exact rational input: NaN (modelled as `none`) on a
negative argument, the real square root otherwise. -/
noncomputable def npSqrt (q : ℚ) : Option ℝ :=
  if q < 0 then none else some (Real.sqrt (q : ℝ))

/-- The annualization constant `trading_days = 252` hardcoded in
`expected_returns_and_covariance`. -/
def trading_days : ℚ := 252

/-- `portfolio_return(weights, mu) = np.dot(weights, mu)`. -/
def portfolio_return (weights mu : List ℚ) : ℚ :=
  dot weights mu

/-- `portfolio_volatility(weights, cov) = np.sqrt(w' · Cov · w)`; the source
applies the square root directly, with no clamping of a negative quadratic
form, so the result is NaN (`none`) whenever `w' · Cov · w < 0`. -/
noncomputable def portfolio_volatility (weights : List ℚ) (cov : List (List ℚ)) : Option ℝ :=
  npSqrt (quadForm weights cov)

/-- The default value `risk_free = 0.07` of `portfolio_sharpe` and
`max_sharpe_portfolio`. -/
def risk_free_default : ℚ := 7 / 100

/-- `portfolio_sharpe(weights, mu, cov, risk_free)`: computes the volatility,
returns `0.0` when `vol <= 0`, else `(ret - risk_free) / vol`.  A NaN
volatility fails the `vol <= 0` comparison in Python and the division then
propagates the NaN, which the `none` branch reproduces. -/
noncomputable def portfolio_sharpe (weights mu : List ℚ) (cov : List (List ℚ))
    (risk_free : ℚ) : Option ℝ :=
  match portfolio_volatility weights cov with
  | none => none
  | some vol =>
      if vol ≤ 0 then some 0
      else some (((portfolio_return weights mu - risk_free : ℚ) : ℝ) / vol)

/-- `portfolio_sharpe` with its default `risk_free` argument. -/
noncomputable def portfolio_sharpe_default (weights mu : List ℚ)
    (cov : List (List ℚ)) : Option ℝ :=
  portfolio_sharpe weights mu cov risk_free_default

/-! ## Statistics estimator (`expected_returns_and_covariance`)

A returns table (`pd.DataFrame`) is a list of rows, one per date, each row
holding one rational return per asset; `k` is the number of asset columns.
`returns.mean(axis=0)` on an empty column and `returns.cov()` with fewer than
two observations produce NaN in pandas, modelled as `none`. -/

/-- Column `j` of the returns table. -/
def column (table : List (List ℚ)) (j : ℕ) : List ℚ :=
  table.map (fun row => row.getD j 0)

/-- `pd.DataFrame.mean` of one column: NaN on an empty column, else the
arithmetic mean. -/
def npMean (xs : List ℚ) : Option ℚ :=
  if xs.length = 0 then none
  else some (xs.sum / (xs.length : ℚ))

/-- One entry of `pd.DataFrame.cov()`: NaN with fewer than 2 observations,
else the demeaned cross product divided by `N - 1`. -/
def pandasCov (xs ys : List ℚ) : Option ℚ :=
  if xs.length < 2 then none
  else
    some ((List.zipWith
            (fun a b => (a - xs.sum / (xs.length : ℚ)) * (b - ys.sum / (ys.length : ℚ)))
            xs ys).sum / ((xs.length : ℚ) - 1))

/-- `expected_returns_and_covariance(returns)`: annualized mean vector and
covariance matrix, `mu = returns.mean(axis=0) * 252`,
`cov = returns.cov() * 252`.  The function performs no validation and has no
error path: it returns whatever pandas computes, NaN entries included. -/
def expected_returns_and_covariance (table : List (List ℚ)) (k : ℕ) :
    List (Option ℚ) × List (List (Option ℚ)) :=
  ((List.range k).map (fun j => (npMean (column table j)).map (fun m => m * trading_days)),
   (List.range k).map (fun i => (List.range k).map (fun j =>
      (pandasCov (column table i) (column table j)).map (fun c => c * trading_days))))

/-- The spec's estimator formula for the mean: `mean(returns_table[:, i])`. -/
def specMean (xs : List ℚ) : ℚ :=
  xs.sum / (xs.length : ℚ)

/-- The spec's estimator formula for the covariance:
`sample_covariance(x, y) = Σ_t (x_t - x̄)(y_t - ȳ) / (N - 1)` (the
conventional unbiased, N-1 denominator). -/
def specSampleCov (xs ys : List ℚ) : ℚ :=
  (List.zipWith (fun a b => (a - specMean xs) * (b - specMean ys)) xs ys).sum
    / ((xs.length : ℚ) - 1)

/-! ## Minimum / maximum of a list (for `np.max(mu)` and claim C8) -/

/-- Minimum of a nonempty list (`0` on the empty list, which numpy rejects). -/
def listMin : List ℚ → ℚ
  | [] => 0
  | x :: xs => xs.foldl min x

/-- `np.max` of a nonempty list (`0` on the empty list, which numpy rejects). -/
def listMax : List ℚ → ℚ
  | [] => 0
  | x :: xs => xs.foldl max x

theorem foldl_min_le_init (xs : List ℚ) (a : ℚ) : xs.foldl min a ≤ a := by
  induction xs generalizing a with
  | nil => exact le_refl a
  | cons x xs ih =>
      calc (x :: xs).foldl min a = xs.foldl min (min a x) := rfl
        _ ≤ min a x := ih (min a x)
        _ ≤ a := min_le_left a x

theorem foldl_min_le_mem (xs : List ℚ) (a y : ℚ) (hy : y ∈ xs) :
    xs.foldl min a ≤ y := by
  induction xs generalizing a with
  | nil => cases hy
  | cons x xs ih =>
      rcases List.mem_cons.mp hy with h | h
      · subst h
        calc (y :: xs).foldl min a = xs.foldl min (min a y) := rfl
          _ ≤ min a y := foldl_min_le_init xs (min a y)
          _ ≤ y := min_le_right a y
      · exact ih (min a x) h

theorem listMin_le_mem (mu : List ℚ) (y : ℚ) (hy : y ∈ mu) : listMin mu ≤ y := by
  cases mu with
  | nil => cases hy
  | cons x xs =>
      rcases List.mem_cons.mp hy with h | h
      · subst h
        exact foldl_min_le_init xs y
      · exact foldl_min_le_mem xs x y h

theorem init_le_foldl_max (xs : List ℚ) (a : ℚ) : a ≤ xs.foldl max a := by
  induction xs generalizing a with
  | nil => exact le_refl a
  | cons x xs ih =>
      calc a ≤ max a x := le_max_left a x
        _ ≤ xs.foldl max (max a x) := ih (max a x)
        _ = (x :: xs).foldl max a := rfl

theorem mem_le_foldl_max (xs : List ℚ) (a y : ℚ) (hy : y ∈ xs) :
    y ≤ xs.foldl max a := by
  induction xs generalizing a with
  | nil => cases hy
  | cons x xs ih =>
      rcases List.mem_cons.mp hy with h | h
      · subst h
        calc y ≤ max a y := le_max_right a y
          _ ≤ xs.foldl max (max a y) := init_le_foldl_max xs (max a y)
          _ = (y :: xs).foldl max a := rfl
      · exact ih (max a x) h

theorem mem_le_listMax (mu : List ℚ) (y : ℚ) (hy : y ∈ mu) : y ≤ listMax mu := by
  cases mu with
  | nil => cases hy
  | cons x xs =>
      rcases List.mem_cons.mp hy with h | h
      · subst h
        exact init_le_foldl_max xs y
      · exact mem_le_foldl_max xs x y h

/-! ## Convexity bounds for the dot product (claim C8) -/

theorem dot_le_scaled (w mu : List ℚ) (u : ℚ)
    (hlen : w.length = mu.length)
    (hw : ∀ x ∈ w, 0 ≤ x)
    (hu : ∀ y ∈ mu, y ≤ u) :
    dot w mu ≤ u * w.sum := by
  induction w generalizing mu with
  | nil =>
      simp [dot]
  | cons a w ih =>
      cases mu with
      | nil => simp at hlen
      | cons b mu =>
          have ha : 0 ≤ a := hw a (List.mem_cons_self a w)
          have hb : b ≤ u := hu b (List.mem_cons_self b mu)
          have h1 : a * b ≤ a * u :=
            mul_le_mul_of_nonneg_left hb ha
          have h2 : dot w mu ≤ u * w.sum :=
            ih mu (by simpa using hlen)
              (fun x hx => hw x (List.mem_cons_of_mem a hx))
              (fun y hy => hu y (List.mem_cons_of_mem b hy))
          have : dot (a :: w) (b :: mu) = a * b + dot w mu := by
            simp [dot]
          rw [this]
          have : u * (a :: w).sum = a * u + u * w.sum := by
            simp [List.sum_cons]
            ring
          rw [this]
          exact add_le_add h1 h2

theorem scaled_le_dot (w mu : List ℚ) (l : ℚ)
    (hlen : w.length = mu.length)
    (hw : ∀ x ∈ w, 0 ≤ x)
    (hl : ∀ y ∈ mu, l ≤ y) :
    l * w.sum ≤ dot w mu := by
  induction w generalizing mu with
  | nil =>
      simp [dot]
  | cons a w ih =>
      cases mu with
      | nil => simp at hlen
      | cons b mu =>
          have ha : 0 ≤ a := hw a (List.mem_cons_self a w)
          have hb : l ≤ b := hl b (List.mem_cons_self b mu)
          have h1 : a * l ≤ a * b :=
            mul_le_mul_of_nonneg_left hb ha
          have h2 : l * w.sum ≤ dot w mu :=
            ih mu (by simpa using hlen)
              (fun x hx => hw x (List.mem_cons_of_mem a hx))
              (fun y hy => hl y (List.mem_cons_of_mem b hy))
          have e1 : dot (a :: w) (b :: mu) = a * b + dot w mu := by
            simp [dot]
          have e2 : l * (a :: w).sum = a * l + l * w.sum := by
            simp [List.sum_cons]
            ring
          rw [e1, e2]
          exact add_le_add h1 h2

/-! ## The abstract constrained solver

`scipy.optimize.minimize(..., method="SLSQP")` is an external dependency, not
repository code, so it is a parameter of the embedding.  A `Problem` records
exactly what each call site passes: the objective closure, the initial guess
`x0`, the box bounds, and the list of equality-constraint functions (each
required to vanish at a feasible point).  An `OptResult` records the fields
the source reads back: `success`, `x`, and `message`. -/

structure OptResult where
  success : Bool
  x : List ℚ
  message : String

structure Problem where
  objective : List ℚ → Option ℝ
  x0 : List ℚ
  bounds : List (ℚ × ℚ)
  constraints : List (List ℚ → ℚ)

abbrev Solver := Problem → OptResult

/-- Modelled from the spec: the convergence contract of the external
constrained solver (spec §4.3 ConstrainedOptimizer, absent from the
repository, which delegates to `scipy.optimize.minimize`): on convergence the
returned iterate has one coordinate per bound pair, respects each box bound
within `tolB`, and satisfies every equality constraint within `tolC`. -/
def FeasibleWithin (tolB tolC : ℚ) (p : Problem) (r : OptResult) : Prop :=
  r.x.length = p.bounds.length ∧
  (∀ pr ∈ List.zip p.bounds r.x, pr.1.1 - tolB ≤ pr.2 ∧ pr.2 ≤ pr.1.2 + tolB) ∧
  (∀ c ∈ p.constraints, -tolC ≤ c r.x ∧ c r.x ≤ tolC)

/-- `_weight_constraint_sum_one(x) = np.sum(x) - 1.0`. -/
def weight_constraint_sum_one (x : List ℚ) : ℚ :=
  x.sum - 1

/-- The equal-weight initial guess `np.ones(n) / n`. -/
def equalWeights (n : ℕ) : List ℚ :=
  List.replicate n (1 / (n : ℚ))

/-- The problem `min_variance_portfolio` hands to `minimize`: objective
`portfolio_volatility(w, cov)`, bounds `[(0.0, 1.0)] * n`, the sum-to-one
equality constraint, and the equal-weight initial guess. -/
noncomputable def minVarProblem (mu : List ℚ) (cov : List (List ℚ)) : Problem :=
  { objective := fun w => portfolio_volatility w cov
    x0 := equalWeights mu.length
    bounds := List.replicate mu.length ((0 : ℚ), (1 : ℚ))
    constraints := [weight_constraint_sum_one] }

/-- `min_variance_portfolio(mu, cov)`: raises `ValueError` when the solve does
not succeed, else returns `(result.x, portfolio_return, portfolio_volatility)`
with `result.x` passed through unchanged. -/
noncomputable def min_variance_portfolio (solver : Solver) (mu : List ℚ)
    (cov : List (List ℚ)) : Except String (List ℚ × ℚ × Option ℝ) :=
  let result := solver (minVarProblem mu cov)
  if result.success then
    .ok (result.x, portfolio_return result.x mu, portfolio_volatility result.x cov)
  else
    .error ("Min variance optimization failed: " ++ result.message)

/-- The problem `max_sharpe_portfolio` hands to `minimize`: objective the
negated Sharpe ratio, bounds `[(-1.0, 1.0)] * n` when `allow_short` else
`[(0.0, 1.0)] * n`, the sum-to-one constraint, equal-weight start. -/
noncomputable def maxSharpeProblem (mu : List ℚ) (cov : List (List ℚ))
    (risk_free : ℚ) (allow_short : Bool) : Problem :=
  { objective := fun w => (portfolio_sharpe w mu cov risk_free).map (fun s => -s)
    x0 := equalWeights mu.length
    bounds :=
      if allow_short then List.replicate mu.length ((-1 : ℚ), (1 : ℚ))
      else List.replicate mu.length ((0 : ℚ), (1 : ℚ))
    constraints := [weight_constraint_sum_one] }

/-- `max_sharpe_portfolio(mu, cov, risk_free, allow_short)`: raises on a
failed solve, else returns `result.x` unchanged together with the return,
volatility and Sharpe ratio recomputed at `result.x`. -/
noncomputable def max_sharpe_portfolio (solver : Solver) (mu : List ℚ)
    (cov : List (List ℚ)) (risk_free : ℚ) (allow_short : Bool) :
    Except String (List ℚ × ℚ × Option ℝ × Option ℝ) :=
  let result := solver (maxSharpeProblem mu cov risk_free allow_short)
  if result.success then
    .ok (result.x, portfolio_return result.x mu,
         portfolio_volatility result.x cov,
         portfolio_sharpe result.x mu cov risk_free)
  else
    .error ("Max Sharpe optimization failed: " ++ result.message)

/-- `np.linspace(a, b, n)`: `n` evenly spaced points from `a` to `b`
inclusive (the `k * (b - a) / (n - 1)` step; for `n = 1` the rational
convention `x / 0 = 0` makes the formula yield `[a]`, as numpy does). -/
def linspace (a b : ℚ) (n : ℕ) : List ℚ :=
  (List.range n).map (fun k : ℕ => a + (k : ℚ) * (b - a) / ((n : ℚ) - 1))

/-- The problem `efficient_frontier` hands to `minimize` at one target-return
grid point: objective `portfolio_volatility(w, cov)`, the configured box
bounds, the sum-to-one constraint plus `portfolio_return(w, mu) - target`,
and the equal-weight initial guess. -/
noncomputable def gridProblem (mu : List ℚ) (cov : List (List ℚ))
    (allow_short : Bool) (target : ℚ) : Problem :=
  { objective := fun w => portfolio_volatility w cov
    x0 := equalWeights mu.length
    bounds :=
      if allow_short then List.replicate mu.length ((-1 : ℚ), (1 : ℚ))
      else List.replicate mu.length ((0 : ℚ), (1 : ℚ))
    constraints := [weight_constraint_sum_one,
                    fun w => portfolio_return w mu - target] }

/-- The body of `efficient_frontier`'s sweep at one grid point: on success,
append `(portfolio_volatility(result.x), portfolio_return(result.x))`;
on failure, append `(np.nan, np.nan)`, modelled as `(none, none)`. -/
noncomputable def frontierPoint (solver : Solver) (mu : List ℚ)
    (cov : List (List ℚ)) (allow_short : Bool) (target : ℚ) :
    Option ℝ × Option ℚ :=
  let result := solver (gridProblem mu cov allow_short target)
  if result.success then
    (portfolio_volatility result.x cov, some (portfolio_return result.x mu))
  else
    (none, none)

/-- `efficient_frontier(mu, cov, n_points, allow_short)`: first solves the
minimum-variance problem (whose `ValueError` propagates), anchors the target
grid at its return, sweeps `np.linspace(min_ret, np.max(mu), n_points)`, and
returns the volatility and return arrays. -/
noncomputable def efficient_frontier (solver : Solver) (mu : List ℚ)
    (cov : List (List ℚ)) (n_points : ℕ) (allow_short : Bool) :
    Except String (List (Option ℝ) × List (Option ℚ)) :=
  match min_variance_portfolio solver mu cov with
  | .error e => .error e
  | .ok (_, min_ret, _) =>
      let targets := linspace min_ret (listMax mu) n_points
      let points := targets.map (frontierPoint solver mu cov allow_short)
      .ok (points.map Prod.fst, points.map Prod.snd)

/-- `optimal_weights_df(symbols, weights)`: pair each symbol with the weight
at the same position and sort by weight descending
(`pd.DataFrame({...}).sort_values("weight", ascending=False)`). -/
def optimal_weights_df (symbols : List String) (weights : List ℚ) :
    List (String × ℚ) :=
  (symbols.zip weights).mergeSort (fun a b => decide (b.2 ≤ a.2))

/-! ## Orchestration (`build_markowitz_portfolio`, post-data-fetch part)

The data-fetch half of `build_markowitz_portfolio` is network glue; the
embedding starts where the aligned returns table is in hand.  The source
wraps each of the three solves in `try/except` that prints and stores `None`,
which `Except.toOption` reproduces. -/

structure BuildOut where
  min_variance : Option (List ℚ × ℚ × Option ℝ)
  max_sharpe : Option (List ℚ × ℚ × Option ℝ × Option ℝ)
  frontier : Option (List (Option ℝ) × List (Option ℚ))

/-- The solve-and-assemble tail of `build_markowitz_portfolio`, given `mu`
and `cov`: each primary solve's exception is caught (`except ... print`) and
the corresponding field left `None`. -/
noncomputable def buildMarkowitzCore (solver : Solver) (mu : List ℚ)
    (cov : List (List ℚ)) (risk_free_rate : ℚ) (max_sharpe_only : Bool) :
    BuildOut :=
  { min_variance := (min_variance_portfolio solver mu cov).toOption
    max_sharpe := (max_sharpe_portfolio solver mu cov risk_free_rate false).toOption
    frontier :=
      if max_sharpe_only then none
      else (efficient_frontier solver mu cov 30 false).toOption }

/-- `build_markowitz_portfolio` from the point the returns table is built:
raises `ValueError` when fewer than 2 symbols had data — before any
statistics-to-optimizer handoff — and otherwise runs the three solves on the
estimated statistics (NaN statistics entries flow through as pandas floats;
`Option.getD 0` stands for such an entry, which the guard `2 ≤` observations
rules out in the cases the theorems use). -/
noncomputable def build_markowitz_portfolio (solver : Solver)
    (symbols_used : List String) (table : List (List ℚ)) (risk_free_rate : ℚ)
    (max_sharpe_only : Bool) : Except String BuildOut :=
  if symbols_used.length < 2 then
    .error "Need at least 2 symbols with historical data for Markowitz optimization."
  else
    let stats := expected_returns_and_covariance table symbols_used.length
    let mu := stats.1.map (fun o => o.getD 0)
    let cov := stats.2.map (fun row => row.map (fun o => o.getD 0))
    .ok (buildMarkowitzCore solver mu cov risk_free_rate max_sharpe_only)

/-! ## Concrete solvers used to instantiate the abstract solver parameter -/

/-- A solver that accepts every problem and returns its initial guess. -/
def trivialSolver : Solver := fun p =>
  { success := true, x := p.x0, message := "" }

/-- A solver that reports non-convergence on every problem. -/
def failSolver : Solver := fun p =>
  { success := false, x := p.x0, message := "did not converge" }

/-! ## Feasibility helper lemmas -/

theorem zip_replicate_mem {α β : Type} (c : α) (w : List β) (x : β)
    (hx : x ∈ w) : (c, x) ∈ (List.replicate w.length c).zip w := by
  induction w with
  | nil => cases hx
  | cons a w ih =>
      rcases List.mem_cons.mp hx with h | h
      · subst h
        simp [List.replicate_succ]
      · have := ih h
        simp only [List.length_cons, List.replicate_succ, List.zip_cons_cons]
        exact List.mem_cons_of_mem _ this

theorem feasible_box (tolB tolC lo hi : ℚ) (n : ℕ) (p : Problem) (r : OptResult)
    (hb : p.bounds = List.replicate n (lo, hi))
    (hf : FeasibleWithin tolB tolC p r) :
    ∀ x ∈ r.x, lo - tolB ≤ x ∧ x ≤ hi + tolB := by
  intro x hx
  obtain ⟨hlen, hbox, _⟩ := hf
  have hn : r.x.length = n := by rw [hlen, hb, List.length_replicate]
  have hmem : ((lo, hi), x) ∈ p.bounds.zip r.x := by
    rw [hb, ← hn]
    exact zip_replicate_mem (lo, hi) r.x x hx
  exact hbox _ hmem

theorem feasible_sum (tolB tolC : ℚ) (p : Problem) (r : OptResult)
    (hc : weight_constraint_sum_one ∈ p.constraints)
    (hf : FeasibleWithin tolB tolC p r) :
    -tolC ≤ r.x.sum - 1 ∧ r.x.sum - 1 ≤ tolC := by
  obtain ⟨_, _, hcon⟩ := hf
  simpa [weight_constraint_sum_one] using hcon _ hc

theorem feasible_weights (tolB : ℚ) (p : Problem) (r : OptResult) (n : ℕ)
    (lo hi : ℚ)
    (hb : p.bounds = List.replicate n (lo, hi))
    (hc : weight_constraint_sum_one ∈ p.constraints)
    (hf : FeasibleWithin tolB (1 / 1000000) p r) :
    (∀ x ∈ r.x, lo - tolB ≤ x ∧ x ≤ hi + tolB) ∧
    -(1 / 1000000) ≤ r.x.sum - 1 ∧ r.x.sum - 1 ≤ 1 / 1000000 :=
  ⟨feasible_box tolB (1 / 1000000) lo hi n p r hb hf,
   feasible_sum tolB (1 / 1000000) p r hc hf⟩

/-- C1: for every weight vector returned by a successful long-only solve
(`min_variance_portfolio`, `max_sharpe_portfolio` with `allow_short=False`,
and each converged efficient-frontier grid point), every weight lies in
`[0, 1]` within tolerance and the weights sum to 1 within `1e-6`; with
`allow_short=True` the per-asset bounds are `[-1, 1]` instead.  The source
passes exactly these boxes and the sum-to-one equality constraint to the
solver and returns `result.x` unchanged, so the spec §4.3 convergence
contract of the external solver (`FeasibleWithin`) transfers verbatim to the
returned weights. -/
theorem C1_solve_weight_invariants (solver : Solver) (tol : ℚ) :
    (∀ mu cov out, min_variance_portfolio solver mu cov = .ok out →
      FeasibleWithin tol (1 / 1000000) (minVarProblem mu cov)
        (solver (minVarProblem mu cov)) →
      (∀ x ∈ out.1, -tol ≤ x ∧ x ≤ 1 + tol) ∧
      -(1 / 1000000) ≤ out.1.sum - 1 ∧ out.1.sum - 1 ≤ 1 / 1000000) ∧
    (∀ mu cov rf out, max_sharpe_portfolio solver mu cov rf false = .ok out →
      FeasibleWithin tol (1 / 1000000) (maxSharpeProblem mu cov rf false)
        (solver (maxSharpeProblem mu cov rf false)) →
      (∀ x ∈ out.1, -tol ≤ x ∧ x ≤ 1 + tol) ∧
      -(1 / 1000000) ≤ out.1.sum - 1 ∧ out.1.sum - 1 ≤ 1 / 1000000) ∧
    (∀ mu cov rf out, max_sharpe_portfolio solver mu cov rf true = .ok out →
      FeasibleWithin tol (1 / 1000000) (maxSharpeProblem mu cov rf true)
        (solver (maxSharpeProblem mu cov rf true)) →
      (∀ x ∈ out.1, -1 - tol ≤ x ∧ x ≤ 1 + tol) ∧
      -(1 / 1000000) ≤ out.1.sum - 1 ∧ out.1.sum - 1 ≤ 1 / 1000000) ∧
    (∀ mu cov t, (solver (gridProblem mu cov false t)).success = true →
      FeasibleWithin tol (1 / 1000000) (gridProblem mu cov false t)
        (solver (gridProblem mu cov false t)) →
      (∀ x ∈ (solver (gridProblem mu cov false t)).x, -tol ≤ x ∧ x ≤ 1 + tol) ∧
      -(1 / 1000000) ≤ (solver (gridProblem mu cov false t)).x.sum - 1 ∧
        (solver (gridProblem mu cov false t)).x.sum - 1 ≤ 1 / 1000000) := by
  have box01 : ∀ (p : Problem) (r : OptResult) (n : ℕ),
      p.bounds = List.replicate n ((0 : ℚ), (1 : ℚ)) →
      weight_constraint_sum_one ∈ p.constraints →
      FeasibleWithin tol (1 / 1000000) p r →
      (∀ x ∈ r.x, -tol ≤ x ∧ x ≤ 1 + tol) ∧
      -(1 / 1000000) ≤ r.x.sum - 1 ∧ r.x.sum - 1 ≤ 1 / 1000000 := by
    intro p r n hb hc hf
    obtain ⟨hbox, hsum⟩ := feasible_weights tol p r n 0 1 hb hc hf
    refine ⟨fun x hx => ?_, hsum⟩
    obtain ⟨h1, h2⟩ := hbox x hx
    constructor
    · linarith
    · exact h2
  refine ⟨?_, ?_, ?_, ?_⟩
  · intro mu cov out hok hf
    simp only [min_variance_portfolio] at hok
    by_cases hs : (solver (minVarProblem mu cov)).success
    · rw [if_pos hs] at hok
      have hx : out.1 = (solver (minVarProblem mu cov)).x := by
        cases hok
        rfl
      rw [hx]
      exact box01 (minVarProblem mu cov) (solver (minVarProblem mu cov))
        mu.length rfl (List.mem_cons_self _ _) hf
    · rw [if_neg hs] at hok
      cases hok
  · intro mu cov rf out hok hf
    simp only [max_sharpe_portfolio] at hok
    by_cases hs : (solver (maxSharpeProblem mu cov rf false)).success
    · rw [if_pos hs] at hok
      have hx : out.1 = (solver (maxSharpeProblem mu cov rf false)).x := by
        cases hok
        rfl
      rw [hx]
      exact box01 (maxSharpeProblem mu cov rf false)
        (solver (maxSharpeProblem mu cov rf false)) mu.length
        (by simp [maxSharpeProblem]) (List.mem_cons_self _ _) hf
    · rw [if_neg hs] at hok
      cases hok
  · intro mu cov rf out hok hf
    simp only [max_sharpe_portfolio] at hok
    by_cases hs : (solver (maxSharpeProblem mu cov rf true)).success
    · rw [if_pos hs] at hok
      have hx : out.1 = (solver (maxSharpeProblem mu cov rf true)).x := by
        cases hok
        rfl
      rw [hx]
      obtain ⟨hbox, hsum⟩ := feasible_weights tol (maxSharpeProblem mu cov rf true)
        (solver (maxSharpeProblem mu cov rf true)) mu.length (-1) 1
        (by simp [maxSharpeProblem]) (List.mem_cons_self _ _) hf
      refine ⟨fun x hx2 => ?_, hsum⟩
      obtain ⟨h1, h2⟩ := hbox x hx2
      exact ⟨by linarith, h2⟩
    · rw [if_neg hs] at hok
      cases hok
  · intro mu cov t _ hf
    exact box01 (gridProblem mu cov false t) (solver (gridProblem mu cov false t))
      mu.length (by simp [gridProblem]) (List.mem_cons_self _ _) hf

theorem C1_witness :
    ((∀ x ∈ equalWeights 2, -(0 : ℚ) ≤ x ∧ x ≤ 1 + 0) ∧
      -(1 / 1000000 : ℚ) ≤ (equalWeights 2).sum - 1 ∧
        (equalWeights 2).sum - 1 ≤ 1 / 1000000) ∧
    ((∀ x ∈ equalWeights 2, -(0 : ℚ) ≤ x ∧ x ≤ 1 + 0) ∧
      -(1 / 1000000 : ℚ) ≤ (equalWeights 2).sum - 1 ∧
        (equalWeights 2).sum - 1 ≤ 1 / 1000000) ∧
    ((∀ x ∈ equalWeights 2, -1 - (0 : ℚ) ≤ x ∧ x ≤ 1 + 0) ∧
      -(1 / 1000000 : ℚ) ≤ (equalWeights 2).sum - 1 ∧
        (equalWeights 2).sum - 1 ≤ 1 / 1000000) ∧
    ((∀ x ∈ equalWeights 2, -(0 : ℚ) ≤ x ∧ x ≤ 1 + 0) ∧
      -(1 / 1000000 : ℚ) ≤ (equalWeights 2).sum - 1 ∧
        (equalWeights 2).sum - 1 ≤ 1 / 1000000) := by
  have hmv : min_variance_portfolio trivialSolver [1, 2] [[1, 0], [0, 1]]
      = .ok (equalWeights 2, portfolio_return (equalWeights 2) [1, 2],
             portfolio_volatility (equalWeights 2) [[1, 0], [0, 1]]) := rfl
  have hms0 : max_sharpe_portfolio trivialSolver [1, 2] [[1, 0], [0, 1]]
        (7 / 100) false
      = .ok (equalWeights 2, portfolio_return (equalWeights 2) [1, 2],
             portfolio_volatility (equalWeights 2) [[1, 0], [0, 1]],
             portfolio_sharpe (equalWeights 2) [1, 2] [[1, 0], [0, 1]]
               (7 / 100)) := rfl
  have hms1 : max_sharpe_portfolio trivialSolver [1, 2] [[1, 0], [0, 1]]
        (7 / 100) true
      = .ok (equalWeights 2, portfolio_return (equalWeights 2) [1, 2],
             portfolio_volatility (equalWeights 2) [[1, 0], [0, 1]],
             portfolio_sharpe (equalWeights 2) [1, 2] [[1, 0], [0, 1]]
               (7 / 100)) := rfl
  have hfeasBox : ∀ lo : ℚ, lo ≤ 0 → ∀ p : Problem, p.x0 = equalWeights 2 →
      p.bounds = List.replicate 2 (lo, (1 : ℚ)) →
      p.constraints = [weight_constraint_sum_one] →
      FeasibleWithin 0 (1 / 1000000) p (trivialSolver p) := by
    intro lo hlo p hx hb hc
    refine ⟨?_, ?_, ?_⟩
    · simp [trivialSolver, hx, hb, equalWeights]
    · intro pr hpr
      simp only [trivialSolver, hx, hb, equalWeights, List.replicate_succ,
        List.replicate_zero, List.zip_cons_cons, List.zip_nil_left,
        List.mem_cons, List.not_mem_nil, or_false] at hpr
      rcases hpr with h | h <;> subst h <;>
        exact ⟨by push_cast; linarith, by push_cast; norm_num⟩
    · intro c hc2
      rw [hc] at hc2
      rcases List.mem_cons.mp hc2 with h | h
      · subst h
        simp only [trivialSolver, hx, equalWeights, weight_constraint_sum_one,
          List.replicate_succ, List.replicate_zero, List.sum_cons, List.sum_nil]
        push_cast
        norm_num
      · exact absurd h (List.not_mem_nil c)
  have hf1 : FeasibleWithin 0 (1 / 1000000)
      (minVarProblem [1, 2] [[1, 0], [0, 1]])
      (trivialSolver (minVarProblem [1, 2] [[1, 0], [0, 1]])) :=
    hfeasBox 0 le_rfl _ rfl rfl rfl
  have hf2 : FeasibleWithin 0 (1 / 1000000)
      (maxSharpeProblem [1, 2] [[1, 0], [0, 1]] (7 / 100) false)
      (trivialSolver (maxSharpeProblem [1, 2] [[1, 0], [0, 1]] (7 / 100) false)) :=
    hfeasBox 0 le_rfl _ rfl rfl rfl
  have hf3 : FeasibleWithin 0 (1 / 1000000)
      (maxSharpeProblem [1, 2] [[1, 0], [0, 1]] (7 / 100) true)
      (trivialSolver (maxSharpeProblem [1, 2] [[1, 0], [0, 1]] (7 / 100) true)) :=
    hfeasBox (-1) (by norm_num) _ rfl rfl rfl
  have hgw : (trivialSolver (gridProblem [1, 2] [[1, 0], [0, 1]] false (3 / 2))).x
      = [(1 : ℚ) / 2, 1 / 2] := by
    show equalWeights ([1, 2] : List ℚ).length = _
    norm_num [equalWeights, List.replicate]
  have hf4 : FeasibleWithin 0 (1 / 1000000)
      (gridProblem [1, 2] [[1, 0], [0, 1]] false (3 / 2))
      (trivialSolver (gridProblem [1, 2] [[1, 0], [0, 1]] false (3 / 2))) := by
    have hb : (gridProblem [1, 2] [[1, 0], [0, 1]] false (3 / 2)).bounds
        = List.replicate 2 ((0 : ℚ), (1 : ℚ)) := rfl
    have hcs : (gridProblem [1, 2] [[1, 0], [0, 1]] false (3 / 2)).constraints
        = [weight_constraint_sum_one,
           fun w => portfolio_return w [1, 2] - 3 / 2] := rfl
    refine ⟨?_, ?_, ?_⟩
    · rw [hgw, hb]
      rfl
    · intro pr hpr
      rw [hgw, hb] at hpr
      simp only [List.replicate, List.zip_cons_cons, List.zip_nil_right,
        List.mem_cons, List.not_mem_nil, or_false] at hpr
      rcases hpr with h | h <;> subst h <;> norm_num
    · intro c hc2
      rw [hcs] at hc2
      rw [hgw]
      rcases List.mem_cons.mp hc2 with h | h
      · subst h
        norm_num [weight_constraint_sum_one]
      · rcases List.mem_cons.mp h with h2 | h2
        · subst h2
          norm_num [portfolio_return, dot]
        · exact absurd h2 (List.not_mem_nil c)
  exact ⟨(C1_solve_weight_invariants trivialSolver 0).1 [1, 2] [[1, 0], [0, 1]]
           _ hmv hf1,
         (C1_solve_weight_invariants trivialSolver 0).2.1 [1, 2] [[1, 0], [0, 1]]
           (7 / 100) _ hms0 hf2,
         (C1_solve_weight_invariants trivialSolver 0).2.2.1 [1, 2] [[1, 0], [0, 1]]
           (7 / 100) _ hms1 hf3,
         (C1_solve_weight_invariants trivialSolver 0).2.2.2 [1, 2] [[1, 0], [0, 1]]
           (3 / 2) rfl hf4⟩

theorem getD_map_range {α : Type} (f : ℕ → α) (k m : ℕ) (hm : m < k) (d : α) :
    ((List.range k).map f).getD m d = f m := by
  rw [List.getD_eq_getElem?_getD, List.getElem?_map, List.getElem?_range hm]
  rfl

/-- C2: `expected_returns_and_covariance` returns `mu[i]` equal to the
arithmetic mean of column `i` times 252, and a covariance matrix whose
`(i, j)` entry is the unbiased (N−1 denominator) sample covariance of
columns `i` and `j` times 252; it is a pure function of the table. -/
theorem C2_estimator_formulas (table : List (List ℚ)) (k i j : ℕ)
    (hi : i < k) (hj : j < k) (hT : 2 ≤ table.length) :
    (expected_returns_and_covariance table k).1.getD i none
      = some (specMean (column table i) * 252) ∧
    ((expected_returns_and_covariance table k).2.getD i []).getD j none
      = some (specSampleCov (column table i) (column table j) * 252) := by
  have hcol : ∀ m : ℕ, (column table m).length = table.length := by
    intro m
    simp [column]
  have hne : (column table i).length ≠ 0 := by
    rw [hcol]
    omega
  have hge : ¬ (column table i).length < 2 := by
    rw [hcol]
    omega
  constructor
  · have e1 : (expected_returns_and_covariance table k).1.getD i none
        = (npMean (column table i)).map (fun m => m * trading_days) :=
      getD_map_range
        (fun j2 => (npMean (column table j2)).map (fun m => m * trading_days))
        k i hi none
    rw [e1, npMean, if_neg hne]
    simp [specMean, trading_days]
  · have e2 : (expected_returns_and_covariance table k).2.getD i []
        = (List.range k).map (fun j2 =>
            (pandasCov (column table i) (column table j2)).map
              (fun c => c * trading_days)) :=
      getD_map_range
        (fun i2 => (List.range k).map (fun j2 =>
          (pandasCov (column table i2) (column table j2)).map
            (fun c => c * trading_days)))
        k i hi []
    have e3 : ((List.range k).map (fun j2 =>
          (pandasCov (column table i) (column table j2)).map
            (fun c => c * trading_days))).getD j none
        = (pandasCov (column table i) (column table j)).map
            (fun c => c * trading_days) :=
      getD_map_range _ k j hj none
    rw [e2, e3, pandasCov, if_neg hge]
    simp [specSampleCov, specMean, trading_days]

theorem C2_witness :
    (expected_returns_and_covariance [[1, 2], [3, 4]] 2).1.getD 0 none
      = some (specMean (column [[1, 2], [3, 4]] 0) * 252) ∧
    ((expected_returns_and_covariance [[1, 2], [3, 4]] 2).2.getD 0 []).getD 1 none
      = some (specSampleCov (column [[1, 2], [3, 4]] 0)
          (column [[1, 2], [3, 4]] 1) * 252) :=
  C2_estimator_formulas [[1, 2], [3, 4]] 2 0 1 (by decide) (by decide) (by decide)

/-- C4: the source computes `np.sqrt(w' · Cov · w)` with no clamping of a
negative quadratic form.  At `w = [1]`, `Σ = [[-1/10^18]]` (the scale of
floating-point noise) the quadratic form is `-1/10^18 < 0` and the function
returns NaN (`none`), whereas the clamped computation the claim describes
would return 0. -/
theorem C4_volatility_nan_eval :
    portfolio_volatility [1] [[-(1 / 10 ^ 18 : ℚ)]] = none ∧
    npSqrt (max 0 (quadForm [1] [[-(1 / 10 ^ 18 : ℚ)]])) = some 0 := by
  have hq : quadForm [1] [[-(1 / 10 ^ 18 : ℚ)]] = -(1 / 10 ^ 18 : ℚ) := by
    simp [quadForm, dot, matVec]
  constructor
  · rw [portfolio_volatility, hq, npSqrt, if_pos]
    norm_num
  · have hmax : max 0 (quadForm [1] [[-(1 / 10 ^ 18 : ℚ)]]) = 0 := by
      rw [hq]
      norm_num [max_eq_left]
    rw [hmax, npSqrt, if_neg (by norm_num)]
    norm_num [Real.sqrt_eq_zero']

/-- C5: whenever the volatility is a strictly positive value,
`portfolio_sharpe` returns `(portfolio_return - risk_free) / volatility`;
whenever the volatility is a value `≤ 0` it returns exactly 0; and the
default `risk_free` rate is `0.07`. -/
theorem C5_sharpe_cases (w mu : List ℚ) (cov : List (List ℚ)) (rf : ℚ) (v : ℝ)
    (hv : portfolio_volatility w cov = some v) :
    (0 < v →
      portfolio_sharpe w mu cov rf
        = some (((portfolio_return w mu - rf : ℚ) : ℝ) / v)) ∧
    (v ≤ 0 → portfolio_sharpe w mu cov rf = some 0) ∧
    portfolio_sharpe_default w mu cov = portfolio_sharpe w mu cov (7 / 100) := by
  refine ⟨?_, ?_, rfl⟩
  · intro hvpos
    rw [portfolio_sharpe, hv]
    simp [not_le.mpr hvpos]
  · intro hvle
    rw [portfolio_sharpe, hv]
    simp [hvle]

theorem C5_witness :
    portfolio_sharpe [1] [2] [[1]] (7 / 100)
      = some (((portfolio_return [1] [2] - 7 / 100 : ℚ) : ℝ) / 1) := by
  have hv : portfolio_volatility [1] [[1]] = some 1 := by
    have hq : quadForm [1] [[(1 : ℚ)]] = 1 := by
      simp [quadForm, dot, matVec]
    rw [portfolio_volatility, hq, npSqrt, if_neg (by norm_num)]
    norm_num
  exact (C5_sharpe_cases [1] [2] [[1]] (7 / 100) 1 hv).1 one_pos

/-- C3 counterexample: at a 1-observation, 2-asset table the estimator
raises nothing — it returns computed statistics: the annualized means, with
every covariance entry NaN (`none`).  No `InsufficientDataError` exists in
the code. -/
theorem C3_counterexample :
    expected_returns_and_covariance [[1 / 100, 2 / 100]] 2
      = ([some (63 / 25), some (126 / 25)], [[none, none], [none, none]]) := by
  have hr : List.range 2 = [0, 1] := rfl
  norm_num [expected_returns_and_covariance, hr, npMean, pandasCov, column,
    trading_days]

/-- C3 amended: the only fail-fast guard is `build_markowitz_portfolio`'s
`ValueError` when fewer than 2 assets remain, raised before the statistics
or any optimization are touched; the statistics estimator itself performs no
validation, and with fewer than 2 observations every covariance entry it
returns is NaN (`none`) rather than an `InsufficientDataError`. -/
theorem C3_amended_guard (solver : Solver) (symbols_used : List String)
    (table : List (List ℚ)) (rf : ℚ) (mso : Bool) :
    (symbols_used.length < 2 →
      build_markowitz_portfolio solver symbols_used table rf mso
        = .error "Need at least 2 symbols with historical data for Markowitz optimization.") ∧
    (table.length < 2 → ∀ i j : ℕ,
      pandasCov (column table i) (column table j) = none) := by
  constructor
  · intro hs
    simp only [build_markowitz_portfolio]
    rw [if_pos hs]
  · intro hT i j
    rw [pandasCov, if_pos]
    simpa [column] using hT

theorem C3_witness :
    build_markowitz_portfolio failSolver ["A"] [[1 / 100]] 0 false
      = .error "Need at least 2 symbols with historical data for Markowitz optimization." ∧
    pandasCov (column [[1 / 100]] 0) (column [[1 / 100]] 1) = none := by
  have h := C3_amended_guard failSolver ["A"] [[1 / 100]] 0 false
  exact ⟨h.1 (by norm_num), h.2 (by norm_num) 0 1⟩

/-- C8: for every weight vector whose entries lie in [0, 1] and sum to 1 and
every expected-returns vector mu of matching length, the portfolio return
lies between min(mu) and max(mu) inclusive. -/
theorem C8_return_within_mu_range (w mu : List ℚ)
    (hlen : w.length = mu.length)
    (hw : ∀ x ∈ w, 0 ≤ x ∧ x ≤ 1) (hsum : w.sum = 1) :
    listMin mu ≤ portfolio_return w mu ∧ portfolio_return w mu ≤ listMax mu := by
  constructor
  · have h := scaled_le_dot w mu (listMin mu) hlen (fun x hx => (hw x hx).1)
      (fun y hy => listMin_le_mem mu y hy)
    rw [hsum, mul_one] at h
    exact h
  · have h := dot_le_scaled w mu (listMax mu) hlen (fun x hx => (hw x hx).1)
      (fun y hy => mem_le_listMax mu y hy)
    rw [hsum, mul_one] at h
    exact h

theorem C8_witness :
    listMin [1, 3] ≤ portfolio_return [1 / 2, 1 / 2] [1, 3] ∧
    portfolio_return [1 / 2, 1 / 2] [1, 3] ≤ listMax [1, 3] :=
  C8_return_within_mu_range [1 / 2, 1 / 2] [1, 3] rfl
    (by
      intro x hx
      simp only [List.mem_cons, List.not_mem_nil, or_false] at hx
      rcases hx with h | h <;> subst h <;> norm_num)
    (by norm_num)

theorem zip_getD_eq (symbols : List String) (weights : List ℚ) :
    ∀ i : ℕ, symbols.length = weights.length → i < symbols.length →
    (symbols.zip weights).getD i ("", 0)
      = (symbols.getD i "", weights.getD i 0) := by
  induction symbols generalizing weights with
  | nil =>
      intro i _ hi
      simp at hi
  | cons s ss ih =>
      intro i hlen hi
      cases weights with
      | nil => simp at hlen
      | cons w ws =>
          cases i with
          | zero => simp [List.zip_cons_cons]
          | succ n =>
              simp only [List.zip_cons_cons, List.getD_cons_succ]
              exact ih ws n (by simpa using hlen) (by simpa using hi)

/-- C9: `optimal_weights_df` returns exactly the pairs
`(symbols[i], weights[i])` — pairing by original position — reordered so
that the weights are in descending order. -/
theorem C9_sorted_weight_pairs (symbols : List String) (weights : List ℚ)
    (hlen : symbols.length = weights.length) :
    (optimal_weights_df symbols weights).Perm (symbols.zip weights) ∧
    List.Pairwise (fun a b : String × ℚ => b.2 ≤ a.2)
      (optimal_weights_df symbols weights) ∧
    (∀ i : ℕ, i < symbols.length →
      (symbols.zip weights).getD i ("", 0)
        = (symbols.getD i "", weights.getD i 0)) := by
  refine ⟨List.mergeSort_perm _ _, ?_, fun i hi => zip_getD_eq symbols weights i hlen hi⟩
  have htrans : ∀ a b c : String × ℚ,
      (fun a b : String × ℚ => decide (b.2 ≤ a.2)) a b →
      (fun a b : String × ℚ => decide (b.2 ≤ a.2)) b c →
      (fun a b : String × ℚ => decide (b.2 ≤ a.2)) a c := by
    intro a b c hab hbc
    simp only [decide_eq_true_eq] at hab hbc ⊢
    exact le_trans hbc hab
  have htotal : ∀ a b : String × ℚ,
      ((fun a b : String × ℚ => decide (b.2 ≤ a.2)) a b
        || (fun a b : String × ℚ => decide (b.2 ≤ a.2)) b a) = true := by
    intro a b
    simp only [Bool.or_eq_true, decide_eq_true_eq]
    exact le_total b.2 a.2
  have h := List.sorted_mergeSort htrans htotal (symbols.zip weights)
  exact h.imp (fun hab => by simpa using hab)

theorem C9_witness :
    (optimal_weights_df ["A", "B"] [1, 2]).Perm
      ((["A", "B"] : List String).zip ([1, 2] : List ℚ)) ∧
    List.Pairwise (fun a b : String × ℚ => b.2 ≤ a.2)
      (optimal_weights_df ["A", "B"] [1, 2]) ∧
    (∀ i : ℕ, i < (["A", "B"] : List String).length →
      ((["A", "B"] : List String).zip ([1, 2] : List ℚ)).getD i ("", 0)
        = ((["A", "B"] : List String).getD i "",
           ([1, 2] : List ℚ).getD i 0)) :=
  C9_sorted_weight_pairs ["A", "B"] [1, 2] rfl

/-! ## Frontier reduction lemmas -/

theorem efficient_frontier_ok (solver : Solver) (mu : List ℚ)
    (cov : List (List ℚ)) (n_points : ℕ) (allow_short : Bool) (w0 : List ℚ)
    (min_ret : ℚ) (v0 : Option ℝ)
    (hmv : min_variance_portfolio solver mu cov = .ok (w0, min_ret, v0)) :
    efficient_frontier solver mu cov n_points allow_short
      = .ok (((linspace min_ret (listMax mu) n_points).map
                (frontierPoint solver mu cov allow_short)).map Prod.fst,
             ((linspace min_ret (listMax mu) n_points).map
                (frontierPoint solver mu cov allow_short)).map Prod.snd) := by
  unfold efficient_frontier
  rw [hmv]

theorem linspace_length (a b : ℚ) (n : ℕ) : (linspace a b n).length = n := by
  rw [linspace, List.length_map, List.length_range]

theorem efficient_frontier_error (solver : Solver) (mu : List ℚ)
    (cov : List (List ℚ)) (n_points : ℕ) (allow_short : Bool) (e : String)
    (hmv : min_variance_portfolio solver mu cov = .error e) :
    efficient_frontier solver mu cov n_points allow_short = .error e := by
  unfold efficient_frontier
  rw [hmv]

/-- C6: `efficient_frontier` sweeps `n_points` target returns linearly
spaced from the minimum-variance portfolio's return up to `max(mu)`; each
grid point is an independent solve started from the equal-weight guess; a
non-converging point contributes NaN (`none`) to both output arrays while
the sweep continues; and both arrays have length exactly `n_points`. -/
theorem C6_frontier_grid (solver : Solver) (mu : List ℚ) (cov : List (List ℚ))
    (n_points : ℕ) (allow_short : Bool) (vols : List (Option ℝ))
    (rets : List (Option ℚ))
    (h : efficient_frontier solver mu cov n_points allow_short
          = .ok (vols, rets)) :
    vols.length = n_points ∧ rets.length = n_points ∧
    ∀ w0 min_ret v0,
      min_variance_portfolio solver mu cov = .ok (w0, min_ret, v0) →
      (linspace min_ret (listMax mu) n_points).length = n_points ∧
      (∀ k2 : ℕ, k2 < n_points →
        (linspace min_ret (listMax mu) n_points).getD k2 0
          = min_ret + (k2 : ℚ) * (listMax mu - min_ret) / ((n_points : ℚ) - 1)) ∧
      vols = (linspace min_ret (listMax mu) n_points).map
          (fun t => (frontierPoint solver mu cov allow_short t).1) ∧
      rets = (linspace min_ret (listMax mu) n_points).map
          (fun t => (frontierPoint solver mu cov allow_short t).2) ∧
      (∀ t : ℚ, (gridProblem mu cov allow_short t).x0 = equalWeights mu.length ∧
        ((solver (gridProblem mu cov allow_short t)).success = false →
          frontierPoint solver mu cov allow_short t = (none, none))) := by
  rcases hmv : min_variance_portfolio solver mu cov with e | out
  · rw [efficient_frontier_error solver mu cov n_points allow_short e hmv] at h
    cases h
  · obtain ⟨w0', min_ret', v0'⟩ := out
    rw [efficient_frontier_ok solver mu cov n_points allow_short w0' min_ret'
        v0' hmv] at h
    have hpair := Except.ok.inj h
    have hvols : vols = ((linspace min_ret' (listMax mu) n_points).map
        (frontierPoint solver mu cov allow_short)).map Prod.fst :=
      ((Prod.ext_iff.mp hpair).1).symm
    have hrets : rets = ((linspace min_ret' (listMax mu) n_points).map
        (frontierPoint solver mu cov allow_short)).map Prod.snd :=
      ((Prod.ext_iff.mp hpair).2).symm
    refine ⟨?_, ?_, ?_⟩
    · rw [hvols, List.length_map, List.length_map, linspace_length]
    · rw [hrets, List.length_map, List.length_map, linspace_length]
    · intro w0 min_ret v0 hmv2
      have hmr : min_ret' = min_ret := by
        have h3 := Except.ok.inj hmv2
        exact (Prod.ext_iff.mp ((Prod.ext_iff.mp h3).2)).1
      subst hmr
      refine ⟨linspace_length _ _ _, ?_, ?_, ?_, ?_⟩
      · intro k2 hk
        unfold linspace
        exact getD_map_range _ n_points k2 hk 0
      · rw [hvols, List.map_map]
        rfl
      · rw [hrets, List.map_map]
        rfl
      · intro t
        refine ⟨rfl, fun hfail => ?_⟩
        simp [frontierPoint, hfail]

theorem C6_witness :
    ((efficient_frontier trivialSolver [1, 2] [[1, 0], [0, 1]] 3 false).map
        (fun pr => (pr.1.length, pr.2.length))) = .ok (3, 3) := by
  have hmv : min_variance_portfolio trivialSolver [1, 2] [[1, 0], [0, 1]]
      = .ok (equalWeights 2, portfolio_return (equalWeights 2) [1, 2],
             portfolio_volatility (equalWeights 2) [[1, 0], [0, 1]]) := rfl
  have hef := efficient_frontier_ok trivialSolver [1, 2] [[1, 0], [0, 1]] 3
    false _ _ _ hmv
  have h6 := C6_frontier_grid trivialSolver [1, 2] [[1, 0], [0, 1]] 3 false
    _ _ hef
  rw [hef]
  simp only [Except.map]
  rw [h6.1, h6.2.1]

/-- C7 counterexample: with a solver that reports non-convergence on every
problem, the portfolio builder returns normally with every strategy field
`None` — the primary min-variance and max-Sharpe failures are caught inside
the builder (`try/except` + print), not propagated to its caller. -/
theorem C7_counterexample :
    buildMarkowitzCore failSolver [1, 2] [[1, 0], [0, 1]] (7 / 100) false
      = { min_variance := none, max_sharpe := none, frontier := none } := rfl

/-- C7 amended: a failed primary solve raises out of
`min_variance_portfolio` / `max_sharpe_portfolio` as a `ValueError`, but
`build_markowitz_portfolio` catches it internally and records `None` for
that strategy instead of propagating it to its caller; per-grid-point
frontier failures are likewise recovered locally inside
`efficient_frontier`. -/
theorem C7_amended_propagation (solver : Solver) (mu : List ℚ)
    (cov : List (List ℚ)) (rf : ℚ) (mso : Bool) :
    ((solver (minVarProblem mu cov)).success = false →
      min_variance_portfolio solver mu cov
        = .error ("Min variance optimization failed: "
            ++ (solver (minVarProblem mu cov)).message)) ∧
    (∀ short : Bool, (solver (maxSharpeProblem mu cov rf short)).success = false →
      max_sharpe_portfolio solver mu cov rf short
        = .error ("Max Sharpe optimization failed: "
            ++ (solver (maxSharpeProblem mu cov rf short)).message)) ∧
    (buildMarkowitzCore solver mu cov rf mso).min_variance
        = (min_variance_portfolio solver mu cov).toOption ∧
    (buildMarkowitzCore solver mu cov rf mso).max_sharpe
        = (max_sharpe_portfolio solver mu cov rf false).toOption ∧
    (∀ e, min_variance_portfolio solver mu cov = .error e →
      (buildMarkowitzCore solver mu cov rf mso).min_variance = none) ∧
    (∀ t : ℚ, (solver (gridProblem mu cov false t)).success = false →
      frontierPoint solver mu cov false t = (none, none)) := by
  refine ⟨?_, ?_, rfl, rfl, ?_, ?_⟩
  · intro hfail
    simp [min_variance_portfolio, hfail]
  · intro short hfail
    simp [max_sharpe_portfolio, hfail]
  · intro e he
    show (min_variance_portfolio solver mu cov).toOption = none
    rw [he]
    rfl
  · intro t hfail
    simp [frontierPoint, hfail]

theorem C7_witness :
    min_variance_portfolio failSolver [1, 2] [[1, 0], [0, 1]]
      = .error ("Min variance optimization failed: "
          ++ (failSolver (minVarProblem [1, 2] [[1, 0], [0, 1]])).message) ∧
    (buildMarkowitzCore failSolver [1, 2] [[1, 0], [0, 1]] (7 / 100)
        false).min_variance = none := by
  have h := C7_amended_propagation failSolver [1, 2] [[1, 0], [0, 1]]
    (7 / 100) false
  have h1 := h.1 rfl
  exact ⟨h1, h.2.2.2.2.1 _ h1⟩

/-- C10: when the anchoring minimum-variance solve inside
`efficient_frontier` does not converge, its `ValueError` propagates and the
whole sweep aborts with that error before any grid point is attempted — the
per-point NaN recovery never applies to the anchoring solve. -/
theorem C10_anchor_failure_aborts (solver : Solver) (mu : List ℚ)
    (cov : List (List ℚ)) (n_points : ℕ) (allow_short : Bool)
    (hfail : (solver (minVarProblem mu cov)).success = false) :
    efficient_frontier solver mu cov n_points allow_short
      = .error ("Min variance optimization failed: "
          ++ (solver (minVarProblem mu cov)).message) := by
  have hmv : min_variance_portfolio solver mu cov
      = .error ("Min variance optimization failed: "
          ++ (solver (minVarProblem mu cov)).message) := by
    simp [min_variance_portfolio, hfail]
  exact efficient_frontier_error solver mu cov n_points allow_short _ hmv

theorem C10_witness :
    efficient_frontier failSolver [1, 2] [[1, 0], [0, 1]] 5 false
      = .error ("Min variance optimization failed: "
          ++ (failSolver (minVarProblem [1, 2] [[1, 0], [0, 1]])).message) :=
  C10_anchor_failure_aborts failSolver [1, 2] [[1, 0], [0, 1]] 5 false rfl

end Markowitz
